import Mathlib

/-!
Shallow embedding of the `rust-market-ledger` consensus engines and ledger
verification routine, translated from the Rust sources:

* `src/etl/mod.rs` — `MarketData`, `Block`
* `src/etl/load.rs` — `DatabaseManager::verify_chain`
* `src/consensus/types.rs` — `ConsensusResult`, `ConsensusMessage`
* `src/consensus/algorithms/pbft_impl.rs` — `NodeState`, `PBFTMessage`, `PBFTManager`
* `src/consensus/algorithms/gossip.rs` — `GossipConsensus`
* `src/consensus/algorithms/quorumless.rs` — `QuorumlessConsensus`
* `src/consensus/algorithms/eventual.rs` — `EventualConsensus`
* `src/consensus/algorithms/flexible_paxos.rs` — `FlexiblePaxos`

Stateful Rust methods (which mutate fields behind `RwLock`s) are translated
into pure step functions that take the engine state and return the updated
state together with the method's return value.  Rust `HashMap`s are modelled
as association lists with last-write-wins insertion, `HashSet`s and `Vec`
sender lists as duplicate-free `List Nat`s, `u64`/`usize` as `Nat`
(the programs never wrap), and `f64`/`f32` values as exact rationals `ℚ`
(every weight and threshold the program manipulates is a small decimal, on
which IEEE double arithmetic is exact).  Wall-clock reads
(`SystemTime::now`, `Utc::now`) become an explicit `now` argument; `tokio`
sleeps have no state effect and are dropped.  SHA-256 content hashing is kept
abstract as a parameter `hashFn : Block → String`: `verify_chain` only calls
it as a black box.

One deliberate exception to step-function faithfulness: the two
`QuorumlessConsensus` methods self-deadlock in the Rust source (a `votes`
read lock is re-acquired under the still-held write guard of the same
non-reentrant `parking_lot` lock), so as written they never return.
`quorumlessPropose` and `quorumlessHandleMessage` model their intended,
deadlock-free semantics — the branch structure of the methods with the lock
slip removed, matching what the crate's own test asserts; see their doc
comments and the C8–C10 claim theorems.
-/

/-- `MarketData` from `src/etl/mod.rs` (the `f32` price as an exact rational). -/
structure MarketData where
  asset : String
  price : ℚ
  source : String
  timestamp : Int
deriving DecidableEq, Repr

/-- `Block` from `src/etl/mod.rs`. -/
structure Block where
  index : Nat
  timestamp : Int
  data : List MarketData
  previous_hash : String
  hash : String
  nonce : Nat
deriving DecidableEq, Repr

/-- `ConsensusResult` from `src/consensus/types.rs`. -/
inductive ConsensusResult where
  | Committed (b : Block)
  | Pending
  | Rejected (reason : String)
deriving DecidableEq, Repr

/-- `ConsensusMessage` from `src/consensus/types.rs`. -/
structure ConsensusMessage where
  algorithm : String
  block_index : Nat
  block_hash : String
  node_id : Nat
  data : List Nat
deriving DecidableEq, Repr

/-- Association-list model of `HashMap::get`. -/
def mapLookup {K V : Type} [DecidableEq K] (k : K) : List (K × V) → Option V
  | [] => none
  | (k', v) :: rest => if k' = k then some v else mapLookup k rest

/-- Association-list model of `HashMap::insert` (overwrites an existing key). -/
def mapInsert {K V : Type} [DecidableEq K] (k : K) (v : V) : List (K × V) → List (K × V)
  | [] => [(k, v)]
  | (k', v') :: rest => if k' = k then (k, v) :: rest else (k', v') :: mapInsert k v rest

/-- Association-list model of `HashMap::remove`. -/
def mapRemove {K V : Type} [DecidableEq K] (k : K) : List (K × V) → List (K × V)
  | [] => []
  | (k', v') :: rest => if k' = k then rest else (k', v') :: mapRemove k rest

/-- `HashSet<u64>::insert`: duplicate-free insertion into a set of indices. -/
def setInsert (x : Nat) (s : List Nat) : List Nat :=
  if x ∈ s then s else x :: s

/-! ## PBFT (`src/consensus/algorithms/pbft_impl.rs`) -/

/-- `MessageType` from `pbft_impl.rs`. -/
inductive MessageType where
  | PrePrepare
  | Prepare
  | Commit
deriving DecidableEq, Repr

/-- `PBFTMessage` from `pbft_impl.rs`. -/
structure PBFTMessage where
  msg_type : MessageType
  view : Nat
  sequence : Nat
  block_hash : String
  block_data_json : Option String
  node_id : Nat
  timestamp : Int
deriving DecidableEq, Repr

/-- `NodeState` from `pbft_impl.rs`: per-phase vote maps keyed on
`(view, sequence)`, each value the `Vec<usize>` of recorded senders. -/
structure NodeState where
  node_id : Nat
  view : Nat
  sequence : Nat
  pre_prepares : List ((Nat × Nat) × List Nat)
  prepares : List ((Nat × Nat) × List Nat)
  commits : List ((Nat × Nat) × List Nat)
  committed_blocks : List Nat
deriving DecidableEq, Repr

/-- `NodeState::new`. -/
def NodeState.new (node_id : Nat) : NodeState :=
  { node_id := node_id, view := 0, sequence := 0,
    pre_prepares := [], prepares := [], commits := [], committed_blocks := [] }

/-- `NodeState::quorum_size`: `f = (total_nodes - 1) / 3`, quorum `2f + 1`. -/
def quorum_size (total_nodes : Nat) : Nat :=
  2 * ((total_nodes - 1) / 3) + 1

/-- `NodeState::has_quorum`: `votes.len() >= quorum_size`. -/
def has_quorum (votes : List Nat) (total_nodes : Nat) : Bool :=
  decide (quorum_size total_nodes ≤ votes.length)

/-- The vote-recording step shared by the three PBFT handlers:
`if !votes.contains(&msg.node_id) { votes.push(msg.node_id) }`. -/
def recordVote (votes : List Nat) (sender : Nat) : List Nat :=
  if sender ∈ votes then votes else votes ++ [sender]

/-- `PBFTManager::handle_pre_prepare` (state-passing form; `total_nodes` is
the manager field).  Returns the updated state and the quorum Bool. -/
def handle_pre_prepare (total_nodes : Nat) (s : NodeState) (msg : PBFTMessage) :
    NodeState × Bool :=
  let key := (msg.view, msg.sequence)
  let votes := (mapLookup key s.pre_prepares).getD []
  let votes' := recordVote votes msg.node_id
  ({ s with pre_prepares := mapInsert key votes' s.pre_prepares },
   has_quorum votes' total_nodes)

/-- `PBFTManager::handle_prepare`. -/
def handle_prepare (total_nodes : Nat) (s : NodeState) (msg : PBFTMessage) :
    NodeState × Bool :=
  let key := (msg.view, msg.sequence)
  let votes := (mapLookup key s.prepares).getD []
  let votes' := recordVote votes msg.node_id
  ({ s with prepares := mapInsert key votes' s.prepares },
   has_quorum votes' total_nodes)

/-- `PBFTManager::handle_commit`: records the sender, then on quorum pushes
the sequence onto `committed_blocks` unless already present. -/
def handle_commit (total_nodes : Nat) (s : NodeState) (msg : PBFTMessage) :
    NodeState × Bool :=
  let key := (msg.view, msg.sequence)
  let votes := (mapLookup key s.commits).getD []
  let votes' := recordVote votes msg.node_id
  let hq := has_quorum votes' total_nodes
  let committed' :=
    if hq ∧ msg.sequence ∉ s.committed_blocks
    then s.committed_blocks ++ [msg.sequence]
    else s.committed_blocks
  ({ s with commits := mapInsert key votes' s.commits,
            committed_blocks := committed' }, hq)

/-- `PBFTManager::is_committed`. -/
def pbftIsCommitted (s : NodeState) (sequence : Nat) : Bool :=
  decide (sequence ∈ s.committed_blocks)

/-! ## Gossip (`src/consensus/algorithms/gossip.rs`) -/

/-- Per-block `GossipState` from `gossip.rs`. -/
structure GossipState where
  block_index : Nat
  block_hash : String
  received_from : List Nat
  timestamp : Nat
deriving DecidableEq, Repr

/-- `GossipConsensus` engine state. -/
structure GossipConsensus where
  node_id : Nat
  state : List (Nat × GossipState)
  committed : List Nat
  gossip_rounds : Nat
  fanout : Nat
deriving DecidableEq, Repr

/-- `GossipConsensus::new`. -/
def GossipConsensus.new (node_id gossip_rounds fanout : Nat) : GossipConsensus :=
  { node_id := node_id, state := [], committed := [],
    gossip_rounds := gossip_rounds, fanout := fanout }

/-- `GossipConsensus::propose`: resets the block's gossip entry, sleeps for
`100 * gossip_rounds` ms (no state effect), then unconditionally inserts the
index into `committed` and returns `Committed(block)`. -/
def gossipPropose (g : GossipConsensus) (block : Block) (now : Nat) :
    GossipConsensus × ConsensusResult :=
  let entry : GossipState :=
    { block_index := block.index, block_hash := block.hash,
      received_from := [], timestamp := now }
  let state' := mapInsert block.index entry g.state
  let committed' := setInsert block.index g.committed
  ({ g with state := state', committed := committed' },
   ConsensusResult.Committed block)

/-- `GossipConsensus::handle_message`: adds the sender to the block's
`received_from` set; once that set has size at least `fanout` the index is
inserted into `committed` (if new); the result is always `Pending`. -/
def gossipHandleMessage (g : GossipConsensus) (message : ConsensusMessage) (now : Nat) :
    GossipConsensus × ConsensusResult :=
  let entry : GossipState :=
    (mapLookup message.block_index g.state).getD
      { block_index := message.block_index, block_hash := message.block_hash,
        received_from := [], timestamp := now }
  let entry' := { entry with received_from := setInsert message.node_id entry.received_from }
  let state' := mapInsert message.block_index entry' g.state
  let threshold := g.fanout
  let committed' :=
    if threshold ≤ entry'.received_from.length ∧ message.block_index ∉ g.committed
    then setInsert message.block_index g.committed
    else g.committed
  ({ g with state := state', committed := committed' }, ConsensusResult.Pending)

/-- `GossipConsensus::is_committed`. -/
def gossipIsCommitted (g : GossipConsensus) (block_index : Nat) : Bool :=
  decide (block_index ∈ g.committed)

/-! ## Quorum-less weighted voting (`src/consensus/algorithms/quorumless.rs`) -/

/-- `QuorumlessConsensus` engine state (weights and the threshold are `f64`
in Rust, exact rationals here). -/
structure QuorumlessConsensus where
  node_id : Nat
  node_weights : List (Nat × ℚ)
  votes : List (Nat × List (Nat × Bool))
  committed : List Nat
  threshold_weight : ℚ
deriving DecidableEq, Repr

/-- `QuorumlessConsensus::new`: nodes `0..10` are given weight `1.0`. -/
def QuorumlessConsensus.new (node_id : Nat) (threshold_weight : ℚ) : QuorumlessConsensus :=
  { node_id := node_id,
    node_weights := (List.range 10).map (fun i => (i, (1 : ℚ))),
    votes := [], committed := [], threshold_weight := threshold_weight }

/-- `QuorumlessConsensus::calculate_total_weight`: sum of the weights of the
nodes with a `true` vote for the index (missing weights count `0.0`). -/
def calculate_total_weight (q : QuorumlessConsensus) (block_index : Nat) : ℚ :=
  match mapLookup block_index q.votes with
  | none => 0
  | some block_votes =>
      ((block_votes.filter (fun p => p.2)).map
        (fun p => (mapLookup p.1 q.node_weights).getD 0)).sum

/-- The vote-recording step shared by `propose` and `handle_message`:
`votes.entry(idx).or_insert_with(HashMap::new).insert(node, true)`. -/
def quorumlessRecordVote (q : QuorumlessConsensus) (block_index voter : Nat) :
    QuorumlessConsensus :=
  let block_votes := (mapLookup block_index q.votes).getD []
  { q with votes := mapInsert block_index (mapInsert voter true block_votes) q.votes }

/-- `QuorumlessConsensus::propose` in its intended, deadlock-free semantics:
records this node's vote, then commits and returns `Committed(block)` when
the total voted weight reaches the threshold, else `Pending`.  NOTE — the
Rust method as written never produces these results: it still holds the
`self.votes` write guard (quorumless.rs line 77, dropped only at function
end) when `calculate_total_weight` re-acquires `self.votes.read()`
(quorumless.rs line 57) on the same non-reentrant `parking_lot` lock, so
every call records the vote and then self-deadlocks.  This definition
follows the method's own branch structure and the behaviour the enclosing
crate's test `test_quorumless_consensus` asserts (a `Pending` return below
threshold); the deadlock is the code bug recorded at claims C8–C10. -/
def quorumlessPropose (q : QuorumlessConsensus) (block : Block) :
    QuorumlessConsensus × ConsensusResult :=
  let q1 := quorumlessRecordVote q block.index q.node_id
  let total_weight := calculate_total_weight q1 block.index
  if q1.threshold_weight ≤ total_weight then
    ({ q1 with committed := setInsert block.index q1.committed },
     ConsensusResult.Committed block)
  else
    (q1, ConsensusResult.Pending)

/-- `QuorumlessConsensus::handle_message` in its intended, deadlock-free
semantics: records the sender's vote and, on reaching the threshold, inserts
the index into `committed` (if new); every return path in the source returns
`Pending`.  NOTE — the Rust method has the same self-deadlock as `propose`:
the `self.votes` write guard (quorumless.rs line 95) is still held when
`calculate_total_weight` re-acquires `self.votes.read()`, so the real call
hangs after recording the vote and reaches neither the committed-set insert
nor any return; that deadlock is the code bug recorded at claims C8–C10. -/
def quorumlessHandleMessage (q : QuorumlessConsensus) (message : ConsensusMessage) :
    QuorumlessConsensus × ConsensusResult :=
  let q1 := quorumlessRecordVote q message.block_index message.node_id
  let total_weight := calculate_total_weight q1 message.block_index
  let committed' :=
    if q1.threshold_weight ≤ total_weight ∧ message.block_index ∉ q1.committed
    then setInsert message.block_index q1.committed
    else q1.committed
  ({ q1 with committed := committed' }, ConsensusResult.Pending)

/-- `QuorumlessConsensus::is_committed`. -/
def quorumlessIsCommitted (q : QuorumlessConsensus) (block_index : Nat) : Bool :=
  decide (block_index ∈ q.committed)

/-! ## Eventual consistency (`src/consensus/algorithms/eventual.rs`) -/

/-- `EventualConsensus` engine state. -/
structure EventualConsensus where
  node_id : Nat
  committed : List Nat
  confirmation_delay_ms : Nat
  min_confirmations : Nat
deriving DecidableEq, Repr

/-- `EventualConsensus::new`. -/
def EventualConsensus.new (node_id confirmation_delay_ms min_confirmations : Nat) :
    EventualConsensus :=
  { node_id := node_id, committed := [],
    confirmation_delay_ms := confirmation_delay_ms,
    min_confirmations := min_confirmations }

/-- `EventualConsensus::propose`: sleeps, inserts the index, returns
`Committed(block)`. -/
def eventualPropose (e : EventualConsensus) (block : Block) :
    EventualConsensus × ConsensusResult :=
  ({ e with committed := setInsert block.index e.committed },
   ConsensusResult.Committed block)

/-- `EventualConsensus::handle_message`: a no-op returning `Pending`. -/
def eventualHandleMessage (e : EventualConsensus) (_message : ConsensusMessage) :
    EventualConsensus × ConsensusResult :=
  (e, ConsensusResult.Pending)

/-- `EventualConsensus::is_committed`. -/
def eventualIsCommitted (e : EventualConsensus) (block_index : Nat) : Bool :=
  decide (block_index ∈ e.committed)

/-! ## Flexible Paxos (`src/consensus/algorithms/flexible_paxos.rs`) -/

/-- `AcceptorState` from `flexible_paxos.rs`. -/
structure AcceptorState where
  promised : Option Nat
  accepted : Option (Nat × Block)
deriving DecidableEq, Repr

/-- `FPaxosMessage` from `flexible_paxos.rs` (the variants the proposer loop
inspects). -/
inductive FPaxosMessage where
  | Promise (from_node : Nat) (proposal : Nat) (accepted : Option (Nat × Block))
  | Accepted (from_node : Nat) (proposal : Nat)
  | Reject (from_node : Nat) (proposal : Nat) (reason : String)
deriving DecidableEq, Repr

/-- `FlexiblePaxos` engine state. -/
structure FlexiblePaxos where
  node_id : Nat
  total_nodes : Nat
  q1_size : Nat
  q2_size : Nat
  acceptors : List (Nat × AcceptorState)
  current_proposal : Nat
  committed : List Nat
  pending_proposals : List (Nat × Block)
deriving DecidableEq, Repr

/-- `FlexiblePaxos::new`: the two `assert!`s become a construction-time
failure (`none`); on success the acceptor map covers `0..total_nodes` and the
proposal counter starts at `node_id * 1000`. -/
def FlexiblePaxos.new (node_id total_nodes q1_size q2_size : Nat) :
    Option FlexiblePaxos :=
  if total_nodes < q1_size + q2_size ∧ (total_nodes + 1) / 2 ≤ q1_size then
    some
      { node_id := node_id, total_nodes := total_nodes,
        q1_size := q1_size, q2_size := q2_size,
        acceptors := (List.range total_nodes).map
          (fun i => (i, { promised := none, accepted := none })),
        current_proposal := node_id * 1000,
        committed := [], pending_proposals := [] }
  else
    none

/-- `FlexiblePaxos::next_proposal`: adds `total_nodes * 1000` to the counter
and returns the new counter as the proposal id.  (`fpaxosPropose` below
inlines this step.) -/
def fpaxosNextProposal (fp : FlexiblePaxos) : FlexiblePaxos × Nat :=
  let p := fp.current_proposal + fp.total_nodes * 1000
  ({ fp with current_proposal := p }, p)

/-- `FlexiblePaxos::handle_prepare` (phase 1): promise when the proposal is
strictly above the current promise, else reject; unknown acceptors yield no
reply. -/
def fpaxosHandlePrepare (fp : FlexiblePaxos) (from_node proposal : Nat) :
    FlexiblePaxos × Option FPaxosMessage :=
  match mapLookup from_node fp.acceptors with
  | none => (fp, none)
  | some a =>
      let should_accept := match a.promised with
        | none => true
        | some p => decide (p < proposal)
      if should_accept then
        ({ fp with acceptors :=
            mapInsert from_node { a with promised := some proposal } fp.acceptors },
         some (FPaxosMessage.Promise from_node proposal a.accepted))
      else
        (fp, some (FPaxosMessage.Reject from_node proposal
          "Already promised to higher proposal"))

/-- `FlexiblePaxos::handle_accept` (phase 2): accept when the proposal is at
least the current promise, updating both `promised` and `accepted`. -/
def fpaxosHandleAccept (fp : FlexiblePaxos) (from_node proposal : Nat) (value : Block) :
    FlexiblePaxos × Option FPaxosMessage :=
  match mapLookup from_node fp.acceptors with
  | none => (fp, none)
  | some a =>
      let should_accept := match a.promised with
        | none => true
        | some p => decide (p ≤ proposal)
      if should_accept then
        let a' : AcceptorState :=
          { promised := some proposal, accepted := some (proposal, value) }
        ({ fp with acceptors := mapInsert from_node a' fp.acceptors },
         some (FPaxosMessage.Accepted from_node proposal))
      else
        (fp, some (FPaxosMessage.Reject from_node proposal "Proposal number too low"))

/-- One iteration of the phase-1 loop of `FlexiblePaxos::propose`: sends
`Prepare` to one acceptor and folds the reply into the promise set and the
highest previously accepted value. -/
def fpaxosPhase1Step (proposal : Nat)
    (acc : FlexiblePaxos × List Nat × Option (Nat × Block)) (node_id : Nat) :
    FlexiblePaxos × List Nat × Option (Nat × Block) :=
  let (fp, promises, highest) := acc
  match fpaxosHandlePrepare fp node_id proposal with
  | (fp', some (FPaxosMessage.Promise from_node _p accepted)) =>
      let promises' := setInsert from_node promises
      let highest' := match accepted with
        | some (prop_id, value) =>
            match highest with
            | none => some (prop_id, value)
            | some (hp, hv) => if hp < prop_id then some (prop_id, value) else some (hp, hv)
        | none => highest
      (fp', promises', highest')
  | (fp', _) => (fp', promises, highest)

/-- One iteration of the phase-2 loop of `FlexiblePaxos::propose`: sends
`AcceptRequest` to one acceptor and collects a matching `Accepted` reply. -/
def fpaxosPhase2Step (proposal : Nat) (value : Block)
    (acc : FlexiblePaxos × List Nat) (node_id : Nat) : FlexiblePaxos × List Nat :=
  let (fp, accepted) := acc
  match fpaxosHandleAccept fp node_id proposal value with
  | (fp', some (FPaxosMessage.Accepted from_node p)) =>
      if p = proposal then (fp', setInsert from_node accepted) else (fp', accepted)
  | (fp', _) => (fp', accepted)

/-- `FlexiblePaxos::propose`: phase 1 over all acceptors, `Q1` check, choice
of the value (highest previously accepted or the new block), phase 2, `Q2`
check, then commit of `block.index` and `Committed(value)`. -/
def fpaxosPropose (fp0 : FlexiblePaxos) (block : Block) :
    FlexiblePaxos × ConsensusResult :=
  let proposal := fp0.current_proposal + fp0.total_nodes * 1000
  let fp1 := { fp0 with current_proposal := proposal }
  let pending' := mapInsert proposal block fp1.pending_proposals
  let fp2 := { fp1 with pending_proposals := pending' }
  let phase1 :=
    (List.range fp2.total_nodes).foldl (fpaxosPhase1Step proposal) (fp2, [], none)
  let fp3 := phase1.1
  let promises := phase1.2.1
  let highest_accepted := phase1.2.2
  if promises.length < fp3.q1_size then
    (fp3, ConsensusResult.Pending)
  else
    let value_to_accept := match highest_accepted with
      | some (_, accepted_block) => accepted_block
      | none => block
    let phase2 :=
      (List.range fp3.total_nodes).foldl
        (fpaxosPhase2Step proposal value_to_accept) (fp3, [])
    let fp4 := phase2.1
    let accepted := phase2.2
    if fp4.q2_size ≤ accepted.length then
      ({ fp4 with committed := setInsert block.index fp4.committed,
                  pending_proposals := mapRemove proposal fp4.pending_proposals },
       ConsensusResult.Committed value_to_accept)
    else
      (fp4, ConsensusResult.Pending)

/-- `FlexiblePaxos::handle_message`: simulated locally, always `Pending`. -/
def fpaxosHandleMessage (fp : FlexiblePaxos) (_message : ConsensusMessage) :
    FlexiblePaxos × ConsensusResult :=
  (fp, ConsensusResult.Pending)

/-- `FlexiblePaxos::is_committed`. -/
def fpaxosIsCommitted (fp : FlexiblePaxos) (block_index : Nat) : Bool :=
  decide (block_index ∈ fp.committed)

/-! ## Chain verification (`src/etl/load.rs`) -/

/-- The `sort_by_key(|b| b.index)` step of `verify_chain`: insertion sort on
the block index. -/
def insertByIndex (b : Block) : List Block → List Block
  | [] => [b]
  | c :: rest => if b.index ≤ c.index then b :: c :: rest else c :: insertByIndex b rest

/-- Sort a list of blocks ascending by index. -/
def sortByIndex : List Block → List Block
  | [] => []
  | b :: rest => insertByIndex b (sortByIndex rest)

/-- The body of the `for i in 1..len` loop of `verify_chain` on consecutive
blocks: previous-hash link and recomputed content hash. -/
def chainStep (hashFn : Block → String) (prev_block curr_block : Block) : Bool :=
  decide (curr_block.previous_hash = prev_block.hash) &&
  decide (hashFn curr_block = curr_block.hash)

/-- The `for i in 1..len` loop of `verify_chain` with its early `false`
returns, over an already sorted list. -/
def checkChainPairs (hashFn : Block → String) : List Block → Bool
  | [] => true
  | [_] => true
  | a :: b :: rest => chainStep hashFn a b && checkChainPairs hashFn (b :: rest)

/-- `DatabaseManager::verify_chain`: `true` on an empty store, otherwise sort
all blocks ascending by index and run the pairwise checks.  The store's rows
are the `blocks` argument; `Block::calculate_hash` (SHA-256 of the
serialized fields) is the abstract `hashFn`. -/
def verify_chain (hashFn : Block → String) (blocks : List Block) : Bool :=
  if blocks.isEmpty then true
  else checkChainPairs hashFn (sortByIndex blocks)

/-! ## Operation alphabets (for stating properties over sequences of calls) -/

/-- An operation on the gossip engine. -/
inductive GossipOp where
  | propose (block : Block) (now : Nat)
  | handle (message : ConsensusMessage) (now : Nat)
deriving Repr

/-- Apply one gossip operation (keeping only the state). -/
def gossipApply (g : GossipConsensus) : GossipOp → GossipConsensus
  | GossipOp.propose b now => (gossipPropose g b now).1
  | GossipOp.handle m now => (gossipHandleMessage g m now).1

/-- Apply a sequence of gossip operations. -/
def gossipApplyAll (g : GossipConsensus) (ops : List GossipOp) : GossipConsensus :=
  ops.foldl gossipApply g

/-- An operation on the PBFT replica state: one of the three phase handlers. -/
inductive PBFTOp where
  | prePrepare (msg : PBFTMessage)
  | prepare (msg : PBFTMessage)
  | commit (msg : PBFTMessage)
deriving Repr

/-- Apply one PBFT phase handler (keeping only the state). -/
def pbftApply (total_nodes : Nat) (s : NodeState) : PBFTOp → NodeState
  | PBFTOp.prePrepare m => (handle_pre_prepare total_nodes s m).1
  | PBFTOp.prepare m => (handle_prepare total_nodes s m).1
  | PBFTOp.commit m => (handle_commit total_nodes s m).1

/-- Apply a sequence of PBFT phase handlers. -/
def pbftApplyAll (total_nodes : Nat) (s : NodeState) (ops : List PBFTOp) : NodeState :=
  ops.foldl (pbftApply total_nodes) s

/-- An operation on the Flexible-Paxos engine. -/
inductive FPaxosOp where
  | propose (block : Block)
  | handle (message : ConsensusMessage)
deriving Repr

/-- Apply one Flexible-Paxos operation (keeping only the state). -/
def fpaxosApply (fp : FlexiblePaxos) : FPaxosOp → FlexiblePaxos
  | FPaxosOp.propose b => (fpaxosPropose fp b).1
  | FPaxosOp.handle m => (fpaxosHandleMessage fp m).1

/-- Apply a sequence of Flexible-Paxos operations. -/
def fpaxosApplyAll (fp : FlexiblePaxos) (ops : List FPaxosOp) : FlexiblePaxos :=
  ops.foldl fpaxosApply fp

/-- An operation on the quorum-less engine. -/
inductive QuorumlessOp where
  | propose (block : Block)
  | handle (message : ConsensusMessage)
deriving Repr

/-- Apply one quorum-less operation (keeping only the state). -/
def quorumlessApply (q : QuorumlessConsensus) : QuorumlessOp → QuorumlessConsensus
  | QuorumlessOp.propose b => (quorumlessPropose q b).1
  | QuorumlessOp.handle m => (quorumlessHandleMessage q m).1

/-- Apply a sequence of quorum-less operations. -/
def quorumlessApplyAll (q : QuorumlessConsensus) (ops : List QuorumlessOp) :
    QuorumlessConsensus :=
  ops.foldl quorumlessApply q

/-- An operation on the eventual-consistency engine. -/
inductive EventualOp where
  | propose (block : Block)
  | handle (message : ConsensusMessage)
deriving Repr

/-- Apply one eventual-consistency operation (keeping only the state). -/
def eventualApply (e : EventualConsensus) : EventualOp → EventualConsensus
  | EventualOp.propose b => (eventualPropose e b).1
  | EventualOp.handle m => (eventualHandleMessage e m).1

/-- Apply a sequence of eventual-consistency operations. -/
def eventualApplyAll (e : EventualConsensus) (ops : List EventualOp) :
    EventualConsensus :=
  ops.foldl eventualApply e

/-! ## Spec-side predicates and derived observers -/

/-- The per-position chain condition the specification states for
`verify_chain`: at every position `i ≥ 1` of the index-sorted block list,
the block's `previous_hash` equals the hash of its predecessor and its
stored hash equals the recomputed content hash.  (Positions are phrased as
`i + 1` to avoid subtraction.) -/
def chainLinked (hashFn : Block → String) (l : List Block) : Prop :=
  ∀ i : Nat, (h : i + 1 < l.length) →
    (l.get ⟨i + 1, h⟩).previous_hash = (l.get ⟨i, Nat.lt_of_succ_lt h⟩).hash ∧
    hashFn (l.get ⟨i + 1, h⟩) = (l.get ⟨i + 1, h⟩).hash

/-- The value `v` that `FlexiblePaxos::propose` sends in phase 2: the block
of the highest-numbered previously accepted value reported by the phase-1
promises, or the newly proposed block when none was reported.  Replays the
phase-1 leg of `fpaxosPropose`. -/
def fpaxosChosenValue (fp0 : FlexiblePaxos) (block : Block) : Block :=
  let proposal := fp0.current_proposal + fp0.total_nodes * 1000
  let fp1 := { fp0 with current_proposal := proposal }
  let pending' := mapInsert proposal block fp1.pending_proposals
  let fp2 := { fp1 with pending_proposals := pending' }
  let phase1 := (List.range fp2.total_nodes).foldl (fpaxosPhase1Step proposal) (fp2, [], none)
  match phase1.2.2 with
  | some (_, accepted_block) => accepted_block
  | none => block

/-! ## Sample data used by counterexamples and witnesses -/

/-- A concrete block with index 1. -/
def sampleBlock1 : Block :=
  { index := 1, timestamp := 0, data := [], previous_hash := "0000_genesis",
    hash := "h1", nonce := 0 }

/-- A concrete block with index 2. -/
def sampleBlock2 : Block :=
  { index := 2, timestamp := 0, data := [], previous_hash := "h1",
    hash := "h2", nonce := 0 }

/-- The single-acceptor Flexible-Paxos engine `FlexiblePaxos::new(0, 1, 1, 1)`
produces. -/
def fpaxosSingleNode : FlexiblePaxos :=
  { node_id := 0, total_nodes := 1, q1_size := 1, q2_size := 1,
    acceptors := [(0, { promised := none, accepted := none })],
    current_proposal := 0, committed := [], pending_proposals := [] }

/-- A concrete generic consensus message for block index 1 sent by node 5. -/
def sampleMessage : ConsensusMessage :=
  { algorithm := "Gossip", block_index := 1, block_hash := "h1",
    node_id := 5, data := [] }

/-- A concrete generic consensus message for block index 1 sent by node 2. -/
def sampleMessage2 : ConsensusMessage :=
  { algorithm := "Quorumless", block_index := 1, block_hash := "h1",
    node_id := 2, data := [] }

/-- A concrete PBFT Pre-Prepare for `(view 0, sequence 1)` carrying hash
`"hash_a"`, sent by node 1. -/
def prePrepareMsgA : PBFTMessage :=
  { msg_type := MessageType.PrePrepare, view := 0, sequence := 1,
    block_hash := "hash_a", block_data_json := none, node_id := 1, timestamp := 0 }

/-- A concrete PBFT Pre-Prepare for the same `(view 0, sequence 1)` carrying
the different hash `"hash_b"`, sent by node 2. -/
def prePrepareMsgB : PBFTMessage :=
  { msg_type := MessageType.PrePrepare, view := 0, sequence := 1,
    block_hash := "hash_b", block_data_json := none, node_id := 2, timestamp := 0 }

/-- A concrete PBFT Prepare message. -/
def prepareMsg : PBFTMessage :=
  { msg_type := MessageType.Prepare, view := 0, sequence := 2,
    block_hash := "hash_a", block_data_json := none, node_id := 3, timestamp := 0 }

/-- A gossip engine state that has already committed index 1. -/
def gossipCommittedSample : GossipConsensus :=
  { node_id := 0, state := [], committed := [1], gossip_rounds := 1, fanout := 1 }

/-- A PBFT replica state that has already committed sequence 1. -/
def pbftCommittedSample : NodeState :=
  { node_id := 0, view := 0, sequence := 0, pre_prepares := [], prepares := [],
    commits := [], committed_blocks := [1] }

/-- A Flexible-Paxos engine state that has already committed index 1. -/
def fpaxosCommittedSample : FlexiblePaxos :=
  { node_id := 0, total_nodes := 1, q1_size := 1, q2_size := 1,
    acceptors := [(0, { promised := none, accepted := none })],
    current_proposal := 0, committed := [1], pending_proposals := [] }

/-- A quorum-less engine state that has already committed index 1. -/
def quorumlessCommittedSample : QuorumlessConsensus :=
  { node_id := 0, node_weights := [(0, 1)], votes := [], committed := [1],
    threshold_weight := 3 }

/-- An eventual-consistency engine state that has already committed index 1. -/
def eventualCommittedSample : EventualConsensus :=
  { node_id := 0, committed := [1], confirmation_delay_ms := 50,
    min_confirmations := 1 }

/-! ## Helper lemmas -/

theorem mapLookup_mapInsert_self {K V : Type} [DecidableEq K] (k : K) (v : V) :
    ∀ m : List (K × V), mapLookup k (mapInsert k v m) = some v
  | [] => by simp [mapLookup, mapInsert]
  | (k', v') :: rest => by
      by_cases h : k' = k
      · simp [mapLookup, mapInsert, h]
      · simp [mapLookup, mapInsert, h, mapLookup_mapInsert_self k v rest]

theorem mapInsert_mapInsert {K V : Type} [DecidableEq K] (k : K) (v₁ v₂ : V) :
    ∀ m : List (K × V), mapInsert k v₂ (mapInsert k v₁ m) = mapInsert k v₂ m
  | [] => by simp [mapInsert]
  | (k', v') :: rest => by
      by_cases h : k' = k
      · simp [mapInsert, h]
      · simp [mapInsert, h, mapInsert_mapInsert k v₁ v₂ rest]

theorem mem_setInsert_self (x : Nat) (s : List Nat) : x ∈ setInsert x s := by
  unfold setInsert
  split
  · assumption
  · exact List.mem_cons_self x s

theorem mem_setInsert_of_mem (x i : Nat) (s : List Nat) (h : i ∈ s) :
    i ∈ setInsert x s := by
  unfold setInsert
  split
  · exact h
  · exact List.mem_cons_of_mem x h

theorem setInsert_of_mem (x : Nat) (s : List Nat) (h : x ∈ s) :
    setInsert x s = s := by
  simp [setInsert, h]

theorem setInsert_idem (x : Nat) (s : List Nat) :
    setInsert x (setInsert x s) = setInsert x s :=
  setInsert_of_mem x (setInsert x s) (mem_setInsert_self x s)

theorem mem_recordVote_self (votes : List Nat) (sender : Nat) :
    sender ∈ recordVote votes sender := by
  unfold recordVote
  split
  · assumption
  · simp

theorem recordVote_of_mem (votes : List Nat) (sender : Nat) (h : sender ∈ votes) :
    recordVote votes sender = votes := by
  simp [recordVote, h]

/-- Invariant preservation through a left fold. -/
theorem foldl_preserve {α β : Type} (f : α → β → α) (P : α → Prop)
    (hf : ∀ a b, P a → P (f a b)) :
    ∀ (l : List β) (a : α), P a → P (l.foldl f a)
  | [], _, h => h
  | b :: rest, a, h => foldl_preserve f P hf rest (f a b) (hf a b h)

theorem gossipApply_committed_mono (g : GossipConsensus) (op : GossipOp) (i : Nat)
    (h : i ∈ g.committed) : i ∈ (gossipApply g op).committed := by
  cases op with
  | propose b now =>
      simpa [gossipApply, gossipPropose] using mem_setInsert_of_mem b.index i g.committed h
  | handle m now =>
      show i ∈ (gossipHandleMessage g m now).1.committed
      unfold gossipHandleMessage
      simp only
      split
      · exact mem_setInsert_of_mem m.block_index i g.committed h
      · exact h

theorem pbftApply_committed_mono (total_nodes : Nat) (s : NodeState) (op : PBFTOp)
    (i : Nat) (h : i ∈ s.committed_blocks) :
    i ∈ (pbftApply total_nodes s op).committed_blocks := by
  cases op with
  | prePrepare m => simpa [pbftApply, handle_pre_prepare] using h
  | prepare m => simpa [pbftApply, handle_prepare] using h
  | commit m =>
      unfold pbftApply handle_commit
      simp only
      split
      · exact List.mem_append_left _ h
      · exact h

theorem fpaxosHandlePrepare_committed (fp : FlexiblePaxos) (from_node proposal : Nat) :
    (fpaxosHandlePrepare fp from_node proposal).1.committed = fp.committed := by
  unfold fpaxosHandlePrepare
  cases mapLookup from_node fp.acceptors with
  | none => rfl
  | some a =>
      simp only
      split <;> rfl

theorem fpaxosHandleAccept_committed (fp : FlexiblePaxos) (from_node proposal : Nat)
    (value : Block) :
    (fpaxosHandleAccept fp from_node proposal value).1.committed = fp.committed := by
  unfold fpaxosHandleAccept
  cases mapLookup from_node fp.acceptors with
  | none => rfl
  | some a =>
      simp only
      split <;> rfl

theorem fpaxosPhase1Step_committed (proposal : Nat)
    (acc : FlexiblePaxos × List Nat × Option (Nat × Block)) (node_id : Nat) :
    (fpaxosPhase1Step proposal acc node_id).1.committed = acc.1.committed := by
  obtain ⟨fp, promises, highest⟩ := acc
  rcases hrep : fpaxosHandlePrepare fp node_id proposal with ⟨fp', reply⟩
  have hc : fp'.committed = fp.committed := by
    have hx := fpaxosHandlePrepare_committed fp node_id proposal
    rw [hrep] at hx
    exact hx
  cases reply with
  | none => simp [fpaxosPhase1Step, hrep, hc]
  | some msg => cases msg <;> simp [fpaxosPhase1Step, hrep, hc]

theorem fpaxosPhase2Step_committed (proposal : Nat) (value : Block)
    (acc : FlexiblePaxos × List Nat) (node_id : Nat) :
    (fpaxosPhase2Step proposal value acc node_id).1.committed = acc.1.committed := by
  obtain ⟨fp, accepted⟩ := acc
  rcases hrep : fpaxosHandleAccept fp node_id proposal value with ⟨fp', reply⟩
  have hc : fp'.committed = fp.committed := by
    have hx := fpaxosHandleAccept_committed fp node_id proposal value
    rw [hrep] at hx
    exact hx
  cases reply with
  | none => simp [fpaxosPhase2Step, hrep, hc]
  | some msg =>
      cases msg with
      | Promise a b c => simp [fpaxosPhase2Step, hrep, hc]
      | Accepted a b =>
          simp only [fpaxosPhase2Step, hrep]
          split <;> simp [hc]
      | Reject a b c => simp [fpaxosPhase2Step, hrep, hc]

theorem fpaxosPhase1_foldl_committed (proposal : Nat) (l : List Nat)
    (acc : FlexiblePaxos × List Nat × Option (Nat × Block)) :
    (l.foldl (fpaxosPhase1Step proposal) acc).1.committed = acc.1.committed := by
  induction l generalizing acc with
  | nil => rfl
  | cons x rest ih =>
      rw [List.foldl_cons, ih, fpaxosPhase1Step_committed]

theorem fpaxosPhase2_foldl_committed (proposal : Nat) (value : Block) (l : List Nat)
    (acc : FlexiblePaxos × List Nat) :
    (l.foldl (fpaxosPhase2Step proposal value) acc).1.committed = acc.1.committed := by
  induction l generalizing acc with
  | nil => rfl
  | cons x rest ih =>
      rw [List.foldl_cons, ih, fpaxosPhase2Step_committed]

theorem fpaxosApply_committed_mono (fp : FlexiblePaxos) (op : FPaxosOp) (i : Nat)
    (h : i ∈ fp.committed) : i ∈ (fpaxosApply fp op).committed := by
  cases op with
  | handle m => simpa [fpaxosApply, fpaxosHandleMessage] using h
  | propose b =>
      unfold fpaxosApply fpaxosPropose
      simp only
      split
      · rwa [fpaxosPhase1_foldl_committed]
      · split
        · refine mem_setInsert_of_mem _ _ _ ?_
          rw [fpaxosPhase2_foldl_committed, fpaxosPhase1_foldl_committed]
          exact h
        · rw [fpaxosPhase2_foldl_committed, fpaxosPhase1_foldl_committed]
          exact h

theorem quorumlessApply_committed_mono (q : QuorumlessConsensus) (op : QuorumlessOp)
    (i : Nat) (h : i ∈ q.committed) : i ∈ (quorumlessApply q op).committed := by
  cases op with
  | propose b =>
      unfold quorumlessApply quorumlessPropose
      simp only
      split
      · simpa [quorumlessRecordVote] using
          mem_setInsert_of_mem b.index i q.committed h
      · simpa [quorumlessRecordVote] using h
  | handle m =>
      unfold quorumlessApply quorumlessHandleMessage
      simp only
      split
      · simpa [quorumlessRecordVote] using
          mem_setInsert_of_mem m.block_index i q.committed h
      · simpa [quorumlessRecordVote] using h

theorem eventualApply_committed_mono (e : EventualConsensus) (op : EventualOp)
    (i : Nat) (h : i ∈ e.committed) : i ∈ (eventualApply e op).committed := by
  cases op with
  | propose b =>
      simpa [eventualApply, eventualPropose] using
        mem_setInsert_of_mem b.index i e.committed h
  | handle m => simpa [eventualApply, eventualHandleMessage] using h

theorem chainLinked_nil (hf : Block → String) : chainLinked hf [] := by
  intro i h
  simp at h

theorem chainLinked_single (hf : Block → String) (a : Block) : chainLinked hf [a] := by
  intro i h
  simp at h

theorem chainLinked_cons_iff (hf : Block → String) (a b : Block) (rest : List Block) :
    chainLinked hf (a :: b :: rest) ↔
      (b.previous_hash = a.hash ∧ hf b = b.hash) ∧ chainLinked hf (b :: rest) := by
  constructor
  · intro H
    refine ⟨?_, ?_⟩
    · have h0 : (0 : Nat) + 1 < (a :: b :: rest).length := by simp
      simpa using H 0 h0
    · intro i h
      have h' : (i + 1) + 1 < (a :: b :: rest).length := by
        simp at h ⊢
        omega
      simpa using H (i + 1) h'
  · rintro ⟨⟨h1, h2⟩, H⟩
    intro i h
    cases i with
    | zero => simpa using ⟨h1, h2⟩
    | succ j =>
        have h' : j + 1 < (b :: rest).length := by
          simp at h ⊢
          omega
        simpa using H j h'

theorem checkChainPairs_iff (hf : Block → String) :
    ∀ l : List Block, checkChainPairs hf l = true ↔ chainLinked hf l
  | [] => by
      constructor
      · intro _
        exact chainLinked_nil hf
      · intro _
        rfl
  | [a] => by
      constructor
      · intro _
        exact chainLinked_single hf a
      · intro _
        rfl
  | a :: b :: rest => by
      rw [chainLinked_cons_iff]
      have ih := checkChainPairs_iff hf (b :: rest)
      simp [checkChainPairs, chainStep, ih]

theorem handle_pre_prepare_idem (tn : Nat) (s : NodeState) (m : PBFTMessage) :
    handle_pre_prepare tn (handle_pre_prepare tn s m).1 m = handle_pre_prepare tn s m := by
  unfold handle_pre_prepare
  simp only [mapLookup_mapInsert_self, Option.getD_some,
    recordVote_of_mem _ _ (mem_recordVote_self _ _), mapInsert_mapInsert]

theorem handle_prepare_idem (tn : Nat) (s : NodeState) (m : PBFTMessage) :
    handle_prepare tn (handle_prepare tn s m).1 m = handle_prepare tn s m := by
  unfold handle_prepare
  simp only [mapLookup_mapInsert_self, Option.getD_some,
    recordVote_of_mem _ _ (mem_recordVote_self _ _), mapInsert_mapInsert]

theorem handle_commit_idem (tn : Nat) (s : NodeState) (m : PBFTMessage) :
    handle_commit tn (handle_commit tn s m).1 m = handle_commit tn s m := by
  unfold handle_commit
  simp only [mapLookup_mapInsert_self, Option.getD_some,
    recordVote_of_mem _ _ (mem_recordVote_self _ _), mapInsert_mapInsert]
  by_cases hq : has_quorum
      (recordVote ((mapLookup (m.view, m.sequence) s.commits).getD []) m.node_id) tn = true
  · by_cases hmem : m.sequence ∈ s.committed_blocks
    · simp [hq, hmem]
    · simp [hq, hmem, List.mem_append]
  · simp at hq
    simp [hq]

theorem gossipHandleMessage_idem (g : GossipConsensus) (m : ConsensusMessage)
    (now now2 : Nat) :
    gossipHandleMessage (gossipHandleMessage g m now).1 m now2 =
      gossipHandleMessage g m now := by
  unfold gossipHandleMessage
  simp only [mapLookup_mapInsert_self, Option.getD_some, setInsert_idem,
    mapInsert_mapInsert]
  by_cases hlen : g.fanout ≤ (setInsert m.node_id ((mapLookup m.block_index g.state).getD
      { block_index := m.block_index, block_hash := m.block_hash,
        received_from := [], timestamp := now }).received_from).length
  · by_cases hmem : m.block_index ∈ g.committed
    · simp [hlen, hmem]
    · simp [hlen, hmem, mem_setInsert_self]
  · simp [hlen]

theorem quorumlessHandleMessage_idem (q : QuorumlessConsensus) (m : ConsensusMessage) :
    quorumlessHandleMessage (quorumlessHandleMessage q m).1 m =
      quorumlessHandleMessage q m := by
  unfold quorumlessHandleMessage quorumlessRecordVote calculate_total_weight
  simp only [mapLookup_mapInsert_self, Option.getD_some, mapInsert_mapInsert]
  by_cases hw : q.threshold_weight ≤
      ((((mapInsert m.node_id true ((mapLookup m.block_index q.votes).getD [])).filter
          (fun p => p.2)).map
        (fun p => (mapLookup p.1 q.node_weights).getD 0)).sum)
  · by_cases hmem : m.block_index ∈ q.committed
    · simp [hw, hmem]
    · simp [hw, hmem, mem_setInsert_self]
  · simp [hw]

theorem quorumlessRecordVote_threshold (q : QuorumlessConsensus) (i n : Nat) :
    (quorumlessRecordVote q i n).threshold_weight = q.threshold_weight := rfl

theorem quorumlessRecordVote_committed (q : QuorumlessConsensus) (i n : Nat) :
    (quorumlessRecordVote q i n).committed = q.committed := rfl

/-! ## Claim theorems -/

/-- Claim C1, counterexample: with `gossip_rounds = 2`, proposing a block to a
fresh engine returns `Committed` and marks the index committed even though the
block's `received_from` set is empty (size `0 < 2 = R`), contradicting the
claim that `propose` commits only when `|received_from| ≥ R` and otherwise
returns `Pending`. -/
theorem gossip_propose_threshold_counterexample :
    (gossipPropose (GossipConsensus.new 0 2 2) sampleBlock1 0).2 =
      ConsensusResult.Committed sampleBlock1 ∧
    gossipIsCommitted (gossipPropose (GossipConsensus.new 0 2 2) sampleBlock1 0).1 1 = true ∧
    ((mapLookup 1 (gossipPropose (GossipConsensus.new 0 2 2) sampleBlock1 0).1.state).getD
        { block_index := 1, block_hash := "", received_from := [], timestamp := 0 }
      ).received_from.length = 0 ∧
    (0 : Nat) < 2 := by
  decide

/-- Claim C1, amended: `GossipConsensus::propose` never consults the
`received_from` set at all — for every engine state and block it inserts the
block's index into the committed set and returns `Committed(block)`
(so in particular it never returns `Pending` or `Rejected`); the
`received_from` threshold is applied only in `handle_message`, where the bound
is `fanout`, not the round count. -/
theorem gossip_propose_always_commits (g : GossipConsensus) (block : Block) (now : Nat) :
    (gossipPropose g block now).2 = ConsensusResult.Committed block ∧
    gossipIsCommitted (gossipPropose g block now).1 block.index = true := by
  refine ⟨rfl, ?_⟩
  simp [gossipPropose, gossipIsCommitted, mem_setInsert_self]

/-- Claim C2, counterexample: two Pre-Prepares for the same `(view 0, seq 1)`
with different block hashes, from senders 1 and 2.  After handling the first,
handling the second changes the replica's recorded state for `(0, 1)` from
sender set `[1]` to `[1, 2]` — the differing-hash Pre-Prepare is not
ignored. -/
theorem pbft_pre_prepare_equivocation_counterexample :
    mapLookup (0, 1) (handle_pre_prepare 4 (NodeState.new 0) prePrepareMsgA).1.pre_prepares =
      some [1] ∧
    mapLookup (0, 1)
      (handle_pre_prepare 4 (handle_pre_prepare 4 (NodeState.new 0) prePrepareMsgA).1
        prePrepareMsgB).1.pre_prepares = some [1, 2] ∧
    prePrepareMsgA.view = prePrepareMsgB.view ∧
    prePrepareMsgA.sequence = prePrepareMsgB.sequence ∧
    prePrepareMsgA.block_hash ≠ prePrepareMsgB.block_hash := by
  decide

/-- Claim C2, amended: `handle_pre_prepare` keys its record only on
`(view, sequence)` and ignores the block hash entirely — handling a message
whose hash is replaced by any other string produces the identical state and
return value, and only a repeat of the *same sender* leaves the recorded
state unchanged (sender idempotence); there is no equivocation defence. -/
theorem pbft_pre_prepare_hash_blind (total_nodes : Nat) (s : NodeState)
    (msg : PBFTMessage) (h : String) :
    handle_pre_prepare total_nodes s { msg with block_hash := h } =
      handle_pre_prepare total_nodes s msg ∧
    (handle_pre_prepare total_nodes (handle_pre_prepare total_nodes s msg).1 msg).1 =
      (handle_pre_prepare total_nodes s msg).1 :=
  ⟨rfl, congrArg Prod.fst (handle_pre_prepare_idem total_nodes s msg)⟩

/-- Claim C3, counterexample: on a single-acceptor engine, propose block 1
(committed), then propose block 2.  Phase 1 of the second proposal reports the
previously accepted block 1, so `v = block 1` and `Committed(block 1)` is
returned — but index `2` (= `b.index`, the newly proposed block's index, not
`v.index = 1`) is inserted into the committed set, refuting the claim that
`v.index` is inserted. -/
theorem fpaxos_commit_index_counterexample :
    FlexiblePaxos.new 0 1 1 1 = some fpaxosSingleNode ∧
    (fpaxosPropose fpaxosSingleNode sampleBlock1).2 = ConsensusResult.Committed sampleBlock1 ∧
    fpaxosIsCommitted (fpaxosPropose fpaxosSingleNode sampleBlock1).1 2 = false ∧
    (fpaxosPropose (fpaxosPropose fpaxosSingleNode sampleBlock1).1 sampleBlock2).2 =
      ConsensusResult.Committed sampleBlock1 ∧
    sampleBlock1.index = 1 ∧ sampleBlock2.index = 2 ∧
    fpaxosIsCommitted
      (fpaxosPropose (fpaxosPropose fpaxosSingleNode sampleBlock1).1 sampleBlock2).1 2 = true := by
  decide

/-- Claim C3, amended: when `FlexiblePaxos::propose` does not return
`Pending`, it returns `Committed(v)` where `v` is the highest-numbered
previously accepted value among the phase-1 promises (or the new block `b`
when none exists, as computed by `fpaxosChosenValue`), and it inserts
`b.index` — the index of the newly proposed block, not of `v` — into the
committed set. -/
theorem fpaxos_propose_commits_proposed_index (fp : FlexiblePaxos) (block : Block) :
    (fpaxosPropose fp block).2 = ConsensusResult.Pending ∨
    ((fpaxosPropose fp block).2 = ConsensusResult.Committed (fpaxosChosenValue fp block) ∧
      fpaxosIsCommitted (fpaxosPropose fp block).1 block.index = true) := by
  unfold fpaxosPropose fpaxosChosenValue
  simp only
  split
  · exact Or.inl rfl
  · split
    · refine Or.inr ⟨rfl, ?_⟩
      simp [fpaxosIsCommitted, mem_setInsert_self]
    · exact Or.inl rfl

/-- Claim C4, counterexample: `FlexiblePaxos::new(0, N = 4, Q1 = 2, Q2 = 3)`
succeeds, yet `Q1 = 2 < 3 = ⌈(N+1)/2⌉` (in ℕ, `⌈(N+1)/2⌉ = (N+1+1)/2`), so
the claim that construction fails whenever `Q1 < ⌈(N+1)/2⌉` is false: the
code's bound is the integer quotient `(N+1)/2 = ⌈N/2⌉`, which is smaller for
even `N`. -/
theorem fpaxos_new_ceil_counterexample :
    (FlexiblePaxos.new 0 4 2 3).isSome = true ∧ 2 + 3 > 4 ∧ 2 < (4 + 1 + 1) / 2 := by
  decide

/-- Claim C4, amended: Flexible-Paxos construction fails exactly when
`Q1 + Q2 ≤ N` or `Q1 < (N+1)/2` (integer division, i.e. `⌈N/2⌉`), and
succeeds exactly when `Q1 + Q2 > N` and `Q1 ≥ (N+1)/2`. -/
theorem fpaxos_new_spec (node_id total_nodes q1_size q2_size : Nat) :
    (FlexiblePaxos.new node_id total_nodes q1_size q2_size = none ↔
      q1_size + q2_size ≤ total_nodes ∨ q1_size < (total_nodes + 1) / 2) ∧
    ((FlexiblePaxos.new node_id total_nodes q1_size q2_size).isSome = true ↔
      (total_nodes < q1_size + q2_size ∧ (total_nodes + 1) / 2 ≤ q1_size)) := by
  unfold FlexiblePaxos.new
  by_cases hcond : total_nodes < q1_size + q2_size ∧ (total_nodes + 1) / 2 ≤ q1_size
  · rw [if_pos hcond]
    refine ⟨?_, ?_⟩
    · simp only [reduceCtorEq, false_iff]
      omega
    · simp only [Option.isSome_some, true_iff]
      exact hcond
  · rw [if_neg hcond]
    rw [not_and_or] at hcond
    refine ⟨?_, ?_⟩
    · simp only [true_iff]
      omega
    · simp only [Option.isSome_none, Bool.false_eq_true, false_iff]
      rw [not_and_or]
      omega

/-- Claim C5: for every engine (gossip, PBFT, Flexible Paxos, quorum-less,
eventual) and every index, once `is_committed` returns `true` it stays `true`
after any further sequence of propose / message-handling operations: the
committed set only grows. -/
theorem is_committed_monotone :
    (∀ (g : GossipConsensus) (ops : List GossipOp) (i : Nat),
        gossipIsCommitted g i = true →
          gossipIsCommitted (gossipApplyAll g ops) i = true) ∧
    (∀ (total_nodes : Nat) (s : NodeState) (ops : List PBFTOp) (i : Nat),
        pbftIsCommitted s i = true →
          pbftIsCommitted (pbftApplyAll total_nodes s ops) i = true) ∧
    (∀ (fp : FlexiblePaxos) (ops : List FPaxosOp) (i : Nat),
        fpaxosIsCommitted fp i = true →
          fpaxosIsCommitted (fpaxosApplyAll fp ops) i = true) ∧
    (∀ (q : QuorumlessConsensus) (ops : List QuorumlessOp) (i : Nat),
        quorumlessIsCommitted q i = true →
          quorumlessIsCommitted (quorumlessApplyAll q ops) i = true) ∧
    (∀ (e : EventualConsensus) (ops : List EventualOp) (i : Nat),
        eventualIsCommitted e i = true →
          eventualIsCommitted (eventualApplyAll e ops) i = true) := by
  refine ⟨?_, ?_, ?_, ?_, ?_⟩
  · intro g ops i h
    simp only [gossipIsCommitted, decide_eq_true_eq] at h ⊢
    exact foldl_preserve gossipApply (fun st => i ∈ st.committed)
      (fun a b ha => gossipApply_committed_mono a b i ha) ops g h
  · intro total_nodes s ops i h
    simp only [pbftIsCommitted, decide_eq_true_eq] at h ⊢
    exact foldl_preserve (pbftApply total_nodes) (fun st => i ∈ st.committed_blocks)
      (fun a b ha => pbftApply_committed_mono total_nodes a b i ha) ops s h
  · intro fp ops i h
    simp only [fpaxosIsCommitted, decide_eq_true_eq] at h ⊢
    exact foldl_preserve fpaxosApply (fun st => i ∈ st.committed)
      (fun a b ha => fpaxosApply_committed_mono a b i ha) ops fp h
  · intro q ops i h
    simp only [quorumlessIsCommitted, decide_eq_true_eq] at h ⊢
    exact foldl_preserve quorumlessApply (fun st => i ∈ st.committed)
      (fun a b ha => quorumlessApply_committed_mono a b i ha) ops q h
  · intro e ops i h
    simp only [eventualIsCommitted, decide_eq_true_eq] at h ⊢
    exact foldl_preserve eventualApply (fun st => i ∈ st.committed)
      (fun a b ha => eventualApply_committed_mono a b i ha) ops e h

/-- Witness for C5: concrete engine states with index 1 committed keep index 1
committed after a further operation, by direct application of the
monotonicity theorem. -/
theorem is_committed_monotone_witness :
    gossipIsCommitted
      (gossipApplyAll gossipCommittedSample [GossipOp.handle sampleMessage 1]) 1 = true ∧
    pbftIsCommitted
      (pbftApplyAll 4 pbftCommittedSample [PBFTOp.prepare prepareMsg]) 1 = true ∧
    fpaxosIsCommitted
      (fpaxosApplyAll fpaxosCommittedSample [FPaxosOp.propose sampleBlock2]) 1 = true ∧
    quorumlessIsCommitted
      (quorumlessApplyAll quorumlessCommittedSample [QuorumlessOp.handle sampleMessage2]) 1 = true ∧
    eventualIsCommitted
      (eventualApplyAll eventualCommittedSample [EventualOp.propose sampleBlock2]) 1 = true :=
  ⟨is_committed_monotone.1 gossipCommittedSample [GossipOp.handle sampleMessage 1] 1 (by decide),
   is_committed_monotone.2.1 4 pbftCommittedSample [PBFTOp.prepare prepareMsg] 1 (by decide),
   is_committed_monotone.2.2.1 fpaxosCommittedSample [FPaxosOp.propose sampleBlock2] 1 (by decide),
   is_committed_monotone.2.2.2.1 quorumlessCommittedSample [QuorumlessOp.handle sampleMessage2] 1 (by decide),
   is_committed_monotone.2.2.2.2 eventualCommittedSample [EventualOp.propose sampleBlock2] 1 (by decide)⟩

/-- Claim C6: the PBFT quorum size is `2f + 1` with `f = (N-1)/3`, so for
`N = 3f + 1` it equals `2f + 1`; concretely `quorum_size 4 = 3`,
`quorum_size 7 = 5`, `quorum_size 10 = 7`; and a vote set has a quorum
exactly when its size is at least `quorum_size N`. -/
theorem pbft_quorum_size_spec :
    (∀ f : Nat, quorum_size (3 * f + 1) = 2 * f + 1) ∧
    quorum_size 4 = 3 ∧ quorum_size 7 = 5 ∧ quorum_size 10 = 7 ∧
    ∀ (votes : List Nat) (total_nodes : Nat),
      has_quorum votes total_nodes = true ↔ quorum_size total_nodes ≤ votes.length := by
  refine ⟨?_, by decide, by decide, by decide, ?_⟩
  · intro f
    unfold quorum_size
    omega
  · intro votes total_nodes
    simp [has_quorum]

/-- Claim C7: `verify_chain` returns `true` on an empty store, and in general
returns `true` exactly when the blocks, sorted ascending by index, satisfy at
every position `i ≥ 1` the previous-hash link and recomputed-hash check
(`chainLinked`), for every choice of the content-hash function. -/
theorem verify_chain_spec :
    (∀ hashFn : Block → String, verify_chain hashFn [] = true) ∧
    ∀ (hashFn : Block → String) (blocks : List Block),
      verify_chain hashFn blocks = true ↔ chainLinked hashFn (sortByIndex blocks) := by
  refine ⟨fun hashFn => rfl, ?_⟩
  intro hashFn blocks
  cases blocks with
  | nil =>
      constructor
      · intro _
        exact chainLinked_nil hashFn
      · intro _
        rfl
  | cons b rest =>
      unfold verify_chain
      rw [if_neg (by simp)]
      exact checkChainPairs_iff hashFn (sortByIndex (b :: rest))

/-- Claim C8 (code bug): the claim states the engine's intended threshold
semantics — commit exactly when the summed weight of recorded `true` votes
reaches the threshold, with `Pending` from `propose` at threshold `3.0` and
a single default-weight voter, exactly what the crate's own
`test_quorumless_consensus` asserts — but the Rust `propose` and
`handle_message` self-deadlock on the re-entered `votes` lock and never
return.  This theorem evaluates the intended, deadlock-free logic (the
method's branch structure with the lock slip removed), under which the
claim's statements hold, including `Pending` at the failing input. -/
theorem quorumless_commit_threshold_spec :
    (∀ (q : QuorumlessConsensus) (block : Block),
      ((quorumlessPropose q block).2 = ConsensusResult.Committed block ↔
        q.threshold_weight ≤
          calculate_total_weight (quorumlessRecordVote q block.index q.node_id)
            block.index)) ∧
    (∀ (q : QuorumlessConsensus) (block : Block),
      (quorumlessIsCommitted (quorumlessPropose q block).1 block.index = true ↔
        (q.threshold_weight ≤
          calculate_total_weight (quorumlessRecordVote q block.index q.node_id)
            block.index ∨
          block.index ∈ q.committed))) ∧
    (∀ (q : QuorumlessConsensus) (m : ConsensusMessage),
      (quorumlessIsCommitted (quorumlessHandleMessage q m).1 m.block_index = true ↔
        (q.threshold_weight ≤
          calculate_total_weight (quorumlessRecordVote q m.block_index m.node_id)
            m.block_index ∨
          m.block_index ∈ q.committed))) ∧
    (quorumlessPropose (QuorumlessConsensus.new 0 3) sampleBlock1).2 =
      ConsensusResult.Pending := by
  refine ⟨?_, ?_, ?_, ?_⟩
  · intro q block
    unfold quorumlessPropose
    simp only
    by_cases hcond : (quorumlessRecordVote q block.index q.node_id).threshold_weight ≤
        calculate_total_weight (quorumlessRecordVote q block.index q.node_id) block.index
    · rw [if_pos hcond]
      rw [quorumlessRecordVote_threshold] at hcond
      exact iff_of_true rfl hcond
    · rw [if_neg hcond]
      rw [quorumlessRecordVote_threshold] at hcond
      refine iff_of_false ?_ hcond
      simp
  · intro q block
    unfold quorumlessPropose
    simp only
    by_cases hcond : (quorumlessRecordVote q block.index q.node_id).threshold_weight ≤
        calculate_total_weight (quorumlessRecordVote q block.index q.node_id) block.index
    · rw [if_pos hcond]
      rw [quorumlessRecordVote_threshold] at hcond
      refine iff_of_true ?_ (Or.inl hcond)
      simp only [quorumlessIsCommitted, decide_eq_true_eq]
      exact mem_setInsert_self _ _
    · rw [if_neg hcond]
      rw [quorumlessRecordVote_threshold] at hcond
      simp only [quorumlessIsCommitted, decide_eq_true_eq,
        quorumlessRecordVote_committed]
      constructor
      · intro hmem
        exact Or.inr hmem
      · intro hor
        cases hor with
        | inl hw => exact absurd hw hcond
        | inr hmem => exact hmem
  · intro q m
    unfold quorumlessHandleMessage
    simp only
    by_cases hw : (quorumlessRecordVote q m.block_index m.node_id).threshold_weight ≤
        calculate_total_weight (quorumlessRecordVote q m.block_index m.node_id) m.block_index
    · by_cases hmem : m.block_index ∈ (quorumlessRecordVote q m.block_index m.node_id).committed
      · rw [quorumlessRecordVote_committed] at hmem
        rw [if_neg (by rw [quorumlessRecordVote_committed]; tauto)]
        simp only [quorumlessIsCommitted, decide_eq_true_eq, quorumlessRecordVote_committed]
        exact iff_of_true hmem (Or.inr hmem)
      · rw [if_pos ⟨hw, hmem⟩]
        rw [quorumlessRecordVote_threshold] at hw
        refine iff_of_true ?_ (Or.inl hw)
        simp only [quorumlessIsCommitted, decide_eq_true_eq]
        exact mem_setInsert_self _ _
    · rw [if_neg (by tauto)]
      rw [quorumlessRecordVote_threshold] at hw
      simp only [quorumlessIsCommitted, decide_eq_true_eq, quorumlessRecordVote_committed]
      constructor
      · intro hmem
        exact Or.inr hmem
      · intro hor
        cases hor with
        | inl h => exact absurd h hw
        | inr hmem => exact hmem
  · unfold quorumlessPropose
    simp only
    rw [if_neg]
    simp only [quorumlessRecordVote_threshold]
    unfold QuorumlessConsensus.new quorumlessRecordVote calculate_total_weight
    simp [mapInsert, mapLookup, List.range_succ]

/-- Claim C9 (code bug in the quorum-less engine): handling the same message
twice is idempotent for the three PBFT phase handlers and the gossip handler
(whatever wall-clock value the second call observes), and adding a duplicate
sender to an already-quorate vote set leaves the size unchanged and the set
quorate — all proved here against the faithful embeddings.  For the
quorum-less handler the claim describes the intended semantics: the real
method records the vote and then self-deadlocks on the re-entered `votes`
lock, so its first application never completes; the quorum-less conjunct
below is proved of the intended, deadlock-free logic, which deduplicates
votes by `node_id` as the claim states. -/
theorem handle_message_idempotent :
    (∀ (total_nodes : Nat) (s : NodeState) (m : PBFTMessage),
      handle_pre_prepare total_nodes (handle_pre_prepare total_nodes s m).1 m =
        handle_pre_prepare total_nodes s m ∧
      handle_prepare total_nodes (handle_prepare total_nodes s m).1 m =
        handle_prepare total_nodes s m ∧
      handle_commit total_nodes (handle_commit total_nodes s m).1 m =
        handle_commit total_nodes s m) ∧
    (∀ (g : GossipConsensus) (m : ConsensusMessage) (now now2 : Nat),
      gossipHandleMessage (gossipHandleMessage g m now).1 m now2 =
        gossipHandleMessage g m now) ∧
    (∀ (q : QuorumlessConsensus) (m : ConsensusMessage),
      quorumlessHandleMessage (quorumlessHandleMessage q m).1 m =
        quorumlessHandleMessage q m) ∧
    (∀ (votes : List Nat) (total_nodes sender : Nat),
      sender ∈ votes → has_quorum votes total_nodes = true →
        (recordVote votes sender).length = votes.length ∧
        has_quorum (recordVote votes sender) total_nodes = true) := by
  refine ⟨?_, gossipHandleMessage_idem, quorumlessHandleMessage_idem, ?_⟩
  · intro total_nodes s m
    exact ⟨handle_pre_prepare_idem total_nodes s m, handle_prepare_idem total_nodes s m,
      handle_commit_idem total_nodes s m⟩
  · intro votes total_nodes sender hmem hq
    rw [recordVote_of_mem votes sender hmem]
    exact ⟨rfl, hq⟩

/-- Witness for C9: adding the duplicate sender 0 to the quorate set
`[0, 1, 2]` (N = 4) keeps the size at 3 and the set quorate, by direct
application of the idempotence theorem. -/
theorem handle_message_idempotent_witness :
    (recordVote [0, 1, 2] 0).length = ([0, 1, 2] : List Nat).length ∧
    has_quorum (recordVote [0, 1, 2] 0) 4 = true :=
  handle_message_idempotent.2.2.2 [0, 1, 2] 4 0 (by decide) (by decide)

/-- Claim C10 (code bug in the quorum-less engine): the gossip
`handle_message` returns `Pending` on every input — never `Committed`, never
`Rejected` — even when processing the message inserts the block index into
the committed set (faithful to gossip.rs, proved below together with a
concrete threshold-crossing run).  For the quorum-less engine the claim
describes the source's return paths, which are all `Pending`; the real
method self-deadlocks on the re-entered `votes` lock before reaching the
committed insert or any return, so the quorum-less conjuncts are proved of
the intended, deadlock-free logic. -/
theorem handle_message_never_commits :
    (∀ (g : GossipConsensus) (m : ConsensusMessage) (now : Nat),
        (gossipHandleMessage g m now).2 = ConsensusResult.Pending) ∧
    (∀ (q : QuorumlessConsensus) (m : ConsensusMessage),
        (quorumlessHandleMessage q m).2 = ConsensusResult.Pending) ∧
    gossipIsCommitted (gossipHandleMessage (GossipConsensus.new 0 1 1) sampleMessage 0).1 1 = true ∧
    quorumlessIsCommitted (quorumlessHandleMessage (QuorumlessConsensus.new 0 1) sampleMessage2).1 1 = true := by
  refine ⟨?_, ?_, by decide, ?_⟩
  · intro g m now
    rfl
  · intro q m
    rfl
  · simp [quorumlessHandleMessage, quorumlessRecordVote, calculate_total_weight,
      QuorumlessConsensus.new, quorumlessIsCommitted, mapInsert, mapLookup,
      setInsert, sampleMessage2, List.range_succ]
